import Mathlib

set_option maxRecDepth 100000

/-!
Verification of the flood-classification program (`flood.py`).

The source program sorts weather observation records, groups consecutive
equal records (ignoring the weather description), maintains a rolling
24-hour rain window per location with strict hourly continuity checking,
detects rain-flooded locations, tracks per-river anchors (the most
upstream rain-flooded projected position near that river), evaluates a
rain-to-skill rule table per group, and finally reports river-flooded
(location, river) pairs.

Numbers that are Python floats are modelled as rationals; the external
geometry collaborator (coordinate projection, distance to a river
polyline, arc-length projection onto it) is modelled as opaque function
parameters in `Env`, exactly as the program treats them.  Python's
`list.sort` is stable, so it is modelled by a stable insertion sort over
the identical key (the record with its rain amount replaced by a
constant); a stable sort is uniquely determined by the key order, so the
model and the source produce the same sorted list.
-/

namespace Flood

/-- Skill levels, in the order of the source enumeration
(`SkillLevel` in flood.py, values NONE=0 .. ADVANCED_SKILLS=3). -/
inductive SkillLevel : Type where
  | NONE : SkillLevel
  | BASIC_SKILLS : SkillLevel
  | INTERMEDIATE_SKILLS : SkillLevel
  | ADVANCED_SKILLS : SkillLevel
deriving DecidableEq

/-- Numeric value of a skill level (the `int` value of the Python enum). -/
def SkillLevel.toNat : SkillLevel → Nat
  | .NONE => 0
  | .BASIC_SKILLS => 1
  | .INTERMEDIATE_SKILLS => 2
  | .ADVANCED_SKILLS => 3

/-- Order on skill levels: the order of the underlying ints. -/
def SkillLevel.le (a b : SkillLevel) : Prop := a.toNat ≤ b.toNat

instance (a b : SkillLevel) : Decidable (SkillLevel.le a b) :=
  Nat.decLe a.toNat b.toNat

/-- Python's `max(a, b)` on the int-valued enum: `a` when `b <= a`, else `b`. -/
def maxS (a b : SkillLevel) : SkillLevel :=
  if b.toNat ≤ a.toNat then a else b

/-- A Python float that the program may set to plus or minus infinity
(`math.inf` in flood.py); finite values are rationals. -/
inductive EFloat : Type where
  | negInf : EFloat
  | val : ℚ → EFloat
  | posInf : EFloat
deriving DecidableEq

/-- IEEE comparison `a <= b` restricted to the values the program uses. -/
def EFloat.leb : EFloat → EFloat → Bool
  | .negInf, _ => true
  | _, .posInf => true
  | .val a, .val b => decide (a ≤ b)
  | .posInf, _ => false
  | _, .negInf => false

/-- IEEE comparison `a < b` restricted to the values the program uses. -/
def EFloat.ltb : EFloat → EFloat → Bool
  | _, .negInf => false
  | .posInf, _ => false
  | .negInf, _ => true
  | .val a, .val b => decide (a < b)
  | .val _, .posInf => true

/-- `FloatRange` of flood.py: an interval with an inclusive/exclusive flag. -/
structure FloatRange where
  start : EFloat
  stop : EFloat
  inc : Bool
deriving DecidableEq

/-- `FloatRange.check` of flood.py (lines 56-59):
inclusive ranges test `start <= value <= stop`,
exclusive ranges test `start < value < stop`. -/
def FloatRange.check (r : FloatRange) (value : ℚ) : Bool :=
  if r.inc then r.start.leb (EFloat.val value) && (EFloat.val value).leb r.stop
  else r.start.ltb (EFloat.val value) && (EFloat.val value).ltb r.stop

/-- `RainToSkill` of flood.py: one rule of the rain-to-skill table. -/
structure RainToSkill where
  rain : FloatRange
  weather : String
  skill : SkillLevel
deriving DecidableEq

/-- `Record` of flood.py: one weather observation. -/
structure Record where
  city_name : String
  dt : Int
  lat : ℚ
  lon : ℚ
  rain_1h : Option ℚ
  weather_description : String
deriving DecidableEq

/-- `Location` of flood.py: the identity key of a location. -/
structure Location where
  city_name : String
  lat : ℚ
  lon : ℚ
deriving DecidableEq

/-- `Data` of flood.py: the per-location rolling window state. -/
structure Data where
  loc : Location
  dt_from : Int
  dt_to : Int
  rain_24h : List ℚ
deriving DecidableEq

/-- The `Location(...)` built from a record in the main loop (line 162). -/
def locOf (r : Record) : Location :=
  { city_name := r.city_name, lat := r.lat, lon := r.lon }

/-- `float(rec.rain_1h or 0)` (line 170): an absent rain value counts as 0. -/
def rainValue (r : Record) : ℚ :=
  match r.rain_1h with
  | none => 0
  | some q => q

/-- The group key `x[:-1]` of line 159: every field of the record except
the weather description. -/
def groupKey (r : Record) : String × Int × ℚ × ℚ × Option ℚ :=
  (r.city_name, r.dt, r.lat, r.lon, r.rain_1h)

/-- Lexicographic code-point comparison of character lists; this is how
Python compares strings. -/
def charsLT : List Char → List Char → Bool
  | [], [] => false
  | [], _ :: _ => true
  | _ :: _, [] => false
  | a :: as, b :: bs =>
    if a.val < b.val then true
    else if b.val < a.val then false
    else charsLT as bs

/-- String comparison by code points, as Python compares strings. -/
def strLT (a b : String) : Bool := charsLT a.data b.data

/-- Total preorder used by the sort of line 155: lexicographic comparison
of `x._replace(rain_1h = 0)`, i.e. of the record tuple with the rain
amount normalized to a constant (so rain never decides the order). -/
def keyLE (a b : Record) : Bool :=
  if strLT a.city_name b.city_name then true
  else if strLT b.city_name a.city_name then false
  else if a.dt < b.dt then true
  else if b.dt < a.dt then false
  else if a.lat < b.lat then true
  else if b.lat < a.lat then false
  else if a.lon < b.lon then true
  else if b.lon < a.lon then false
  else if strLT a.weather_description b.weather_description then true
  else if strLT b.weather_description a.weather_description then false
  else true

/-- Stable insertion of a record into an already sorted list: on ties the
inserted record (which comes earlier in the original order) stays first. -/
def insertRec (x : Record) : List Record → List Record
  | [] => [x]
  | y :: ys => if keyLE x y then x :: y :: ys else y :: insertRec x ys

/-- `records.sort(key = lambda x: x._replace(rain_1h = 0))` (line 155):
Python's sort is stable, and a stable sort is uniquely determined by the
key order, so a stable insertion sort models it exactly. -/
def sortRecords : List Record → List Record
  | [] => []
  | x :: xs => insertRec x (sortRecords xs)

/-- `itertools.groupby(records, key = lambda x: x[:-1])` (line 159):
maximal runs of consecutive records with equal `groupKey`. -/
def groupRecords : List Record → List (List Record)
  | [] => []
  | r :: rs =>
    match groupRecords rs with
    | [] => [[r]]
    | [] :: gs => [r] :: gs
    | (r2 :: g) :: gs =>
      if groupKey r = groupKey r2 then (r :: r2 :: g) :: gs
      else [r] :: (r2 :: g) :: gs

/-- Addition of rationals, written out on numerators and denominators;
`qadd_eq_add` below proves it is the addition of `ℚ`.  (Spelled this way
so that concrete runs of the program evaluate inside the kernel.) -/
def qadd (a b : ℚ) : ℚ := mkRat (a.num * b.den + b.num * a.den) (a.den * b.den)

/-- Python's `sum(...)`: a left fold of addition starting from 0;
`qsum_eq_sum` below proves it is the list sum of `ℚ`. -/
def qsum (l : List ℚ) : ℚ := l.foldl qadd 0

/-- Python's `min(a, b)`: `a` when `a <= b`, else `b`; `qmin_eq_min`
below proves it is the minimum of `ℚ`. -/
def qmin (a b : ℚ) : ℚ := if a ≤ b then a else b

/-- Lines 170-172: append the current rain value; when the sequence then
exceeds 24 entries, delete the oldest one. -/
def push24 (l : List ℚ) (v : ℚ) : List ℚ :=
  if 24 < (l ++ [v]).length then (l ++ [v]).drop 1 else l ++ [v]

/-- Lines 163-172: fetch or open the location window, enforce hourly
continuity, and append the rain value.  `loc ≠ d.loc ∨ rec.dt = d.dt_to
+ 3600` mirrors `loc != d.loc or rec.dt == d.dt_to + 3600` of line 166;
the remaining case raises (line 169). -/
def windowStep (loc : Location) (d? : Option Data) (r : Record) : Except String Data :=
  match d? with
  | none =>
      Except.ok { loc := loc, dt_from := r.dt - 3600, dt_to := r.dt,
                  rain_24h := push24 [] (rainValue r) }
  | some d =>
      if loc ≠ d.loc ∨ r.dt = d.dt_to + 3600 then
        Except.ok { d with dt_to := r.dt, rain_24h := push24 d.rain_24h (rainValue r) }
      else
        Except.error "ContinuityError"

section Assoc

variable {α β : Type} [DecidableEq α]

/-- Python `dict.get`: the value stored under a key, if any. -/
def alookup : List (α × β) → α → Option β
  | [], _ => none
  | kv :: t, k => if kv.1 = k then some kv.2 else alookup t k

/-- Python `dict[k] = v`: replace the value in place or append a new entry. -/
def aset : List (α × β) → α → β → List (α × β)
  | [], k, v => [(k, v)]
  | kv :: t, k, v => if kv.1 = k then (kv.1, v) :: t else kv :: aset t k v

/-- Python `set.add`: insertion-ordered set modelled as a duplicate-free list. -/
def insertSet (l : List α) (x : α) : List α :=
  if x ∈ l then l else l ++ [x]

end Assoc

/-- `river_flood[river] = min(river_flood.get(river, inf), position)`
(line 179): with no existing anchor the minimum against infinity is the
new (finite) position itself. -/
def asetMin (l : List (String × ℚ)) (k : String) (v : ℚ) : List (String × ℚ) :=
  match alookup l k with
  | none => aset l k v
  | some a => aset l k (qmin a v)

/-- A named river, as the classification logic sees it: the external
geometry collaborator answers planar distance to the polyline and
arc-length position of the projection onto it (shapely's `distance`
and `project`). -/
structure RiverGeom where
  dist : ℚ × ℚ → ℚ
  proj : ℚ × ℚ → ℚ

/-- The program's fixed collaborators and configuration: the coordinate
projection `PROJECT.transform`, the river table `RIVERS`, the rule table
`RAIN_TO_SKILLS`, and the two command-line parameters. -/
structure Env where
  PROJECT : ℚ → ℚ → ℚ × ℚ
  rivers : List (String × RiverGeom)
  rules : List RainToSkill
  rain_threshold : ℚ
  river_margin : ℚ

/-- The mutable state of the main loop: `data`, `rain_flood`,
`river_flood`, and the printed skill reports (location, skill, time). -/
structure St where
  data : List (Location × Data)
  rain_flood : List Location
  river_flood : List (String × ℚ)
  skills : List (Location × SkillLevel × Int)
deriving DecidableEq

/-- The state at the start of the main loop (lines 156-158). -/
def initSt : St := { data := [], rain_flood := [], river_flood := [], skills := [] }

/-- Lines 176-179: for each river within `river_margin` of the point,
lower its running anchor to the projected position. -/
def updateAnchors (rivers : List (String × RiverGeom)) (margin : ℚ) (p : ℚ × ℚ)
    (anchors : List (String × ℚ)) : List (String × ℚ) :=
  rivers.foldl (fun acc nr =>
    if nr.2.dist p < margin then asetMin acc nr.1 (nr.2.proj p) else acc) anchors

/-- The inner loop of lines 182-184: fold one record's weather against
every rule of the table. -/
def ruleFold (rules : List RainToSkill) (rain24 : ℚ) (r : Record) (s : SkillLevel) : SkillLevel :=
  rules.foldl (fun s r2s =>
    if r2s.weather = r.weather_description ∧ r2s.rain.check rain24 = true
    then maxS s r2s.skill else s) s

/-- Lines 180-184: the maximum matching skill over every record of the
group and every rule of the table, starting from NONE. -/
def groupSkill (rules : List RainToSkill) (rain24 : ℚ) (recs : List Record) : SkillLevel :=
  recs.foldl (fun s r => ruleFold rules rain24 r s) SkillLevel.NONE

/-- The state after one successful iteration of the main loop on the
group `r :: rest`, where `d` is the updated window (lines 173-187). -/
def applyGroup (env : Env) (st : St) (r : Record) (rest : List Record) (d : Data) : St :=
  let loc := locOf r
  let rain24 := qsum d.rain_24h
  let s := groupSkill env.rules rain24 (r :: rest)
  { data := aset st.data loc d,
    rain_flood := if env.rain_threshold ≤ rain24 then insertSet st.rain_flood loc
      else st.rain_flood,
    river_flood := if env.rain_threshold ≤ rain24 then
        updateAnchors env.rivers env.river_margin (env.PROJECT loc.lat loc.lon) st.river_flood
      else st.river_flood,
    skills := if s = SkillLevel.NONE then st.skills
      else st.skills ++ [(loc, s, (rest.getLastD r).dt)] }

/-- One iteration of the main loop (lines 159-187) on one group of
records; the empty-group case never arises from `groupRecords`. -/
def stepGroup (env : Env) (st : St) : List Record → Except String St
  | [] => Except.ok st
  | r :: rest =>
    match windowStep (locOf r) (alookup st.data (locOf r)) r with
    | Except.error e => Except.error e
    | Except.ok d => Except.ok (applyGroup env st r rest d)

/-- The whole main loop: process the groups in order, aborting on the
first continuity failure. -/
def runGroups (env : Env) (st : St) : List (List Record) → Except String St
  | [] => Except.ok st
  | g :: gs =>
    match stepGroup env st g with
    | Except.error e => Except.error e
    | Except.ok st2 => runGroups env st2 gs

/-- Pass 2 (lines 192-198): for every tracked location that is not
rain-flooded, report it against every river whose polyline is strictly
within `river_margin` of the location's projected point and whose
recorded anchor is at most the location's projected position
(`project(p) >= river_flood.get(river, inf)` is false when no anchor was
ever recorded, because the projection is finite). -/
def riverFloodPairs (env : Env) (st : St) : List (Location × String) :=
  (st.data.filter (fun ld => !(decide (ld.1 ∈ st.rain_flood)))).flatMap (fun ld =>
    (env.rivers.filter (fun nr =>
      decide (nr.2.dist (env.PROJECT ld.1.lat ld.1.lon) < env.river_margin) &&
      (match alookup st.river_flood nr.1 with
       | some a => decide (a ≤ nr.2.proj (env.PROJECT ld.1.lat ld.1.lon))
       | none => false))).map (fun nr => (ld.1, nr.1)))

/-- Everything the program reports. -/
structure Result where
  data : List (Location × Data)
  rain_flood : List Location
  river_flood : List (String × ℚ)
  skills : List (Location × SkillLevel × Int)
  pairs : List (Location × String)
deriving DecidableEq

/-- `main` of flood.py on an already-parsed record list: sort, group,
run the main loop, then run pass 2. -/
def runMain (env : Env) (records : List Record) : Except String Result :=
  match runGroups env initSt (groupRecords (sortRecords records)) with
  | Except.error e => Except.error e
  | Except.ok st =>
      Except.ok { data := st.data, rain_flood := st.rain_flood,
                  river_flood := st.river_flood, skills := st.skills,
                  pairs := riverFloodPairs env st }

/-- The window updates a fixed location receives, starting from an
arbitrary window state. -/
def windowRunFrom (loc : Location) : Option Data → List Record → Except String (Option Data)
  | d?, [] => Except.ok d?
  | d?, r :: rest =>
    match windowStep loc d? r with
    | Except.error e => Except.error e
    | Except.ok d => windowRunFrom loc (some d) rest

/-- The first records of exactly those groups that belong to `loc`:
these are the records whose rain values the main loop appends to the
window of `loc`. -/
def locFirsts (loc : Location) (gs : List (List Record)) : List Record :=
  gs.filterMap (fun g => match g with
    | [] => none
    | r :: _ => if locOf r = loc then some r else none)

/-- A record stream is hourly-contiguous after time `t`: each record is
stamped exactly 3600 seconds after its predecessor, the first one 3600
seconds after `t`. -/
def contigFromB : Int → List Record → Bool
  | _, [] => true
  | t, r :: rest => decide (r.dt = t + 3600) && contigFromB r.dt rest

/-- The payload of a successful run, defaulting to the empty result. -/
def resOf (x : Except String Result) : Result :=
  match x with
  | Except.ok r => r
  | Except.error _ => { data := [], rain_flood := [], river_flood := [], skills := [], pairs := [] }

/-- The final loop state of a successful run, defaulting to the initial state. -/
def stOf (x : Except String St) : St :=
  match x with
  | Except.ok st => st
  | Except.error _ => initSt

/-- The group `g`, processed in state `st`, rain-floods the location
`loc`: `loc` is the group's location and the rolling sum right after the
group's window update reaches the threshold (lines 173-175). -/
def floodCond (env : Env) (st : St) (g : List Record) (loc : Location) : Prop :=
  match g with
  | [] => False
  | r :: _ => loc = locOf r ∧
      ∃ d, windowStep (locOf r) (alookup st.data (locOf r)) r = Except.ok d ∧
        env.rain_threshold ≤ qsum d.rain_24h

/-- Order on optional anchors, a missing anchor standing for plus
infinity as in `river_flood.get(river, inf)`. -/
def anchorLe (a b : Option ℚ) : Prop :=
  match a, b with
  | _, none => True
  | some x, some y => x ≤ y
  | none, some _ => False

instance (a b : Option ℚ) : Decidable (anchorLe a b) :=
  match a, b with
  | none, none => Decidable.isTrue trivial
  | some _, none => Decidable.isTrue trivial
  | some x, some y => inferInstanceAs (Decidable (x ≤ y))
  | none, some _ => Decidable.isFalse (fun h => h)

instance {ε α : Type} [DecidableEq ε] [DecidableEq α] : DecidableEq (Except ε α) := fun a b =>
  match a, b with
  | Except.error e1, Except.error e2 =>
    if h : e1 = e2 then Decidable.isTrue (by rw [h])
    else Decidable.isFalse (by intro hh; cases hh; exact h rfl)
  | Except.ok v1, Except.ok v2 =>
    if h : v1 = v2 then Decidable.isTrue (by rw [h])
    else Decidable.isFalse (by intro hh; cases hh; exact h rfl)
  | Except.error _, Except.ok _ => Decidable.isFalse (by intro hh; cases hh)
  | Except.ok _, Except.error _ => Decidable.isFalse (by intro hh; cases hh)

/-- A sample river geometry: every point is at distance 0 of the
polyline and projects to its first coordinate. -/
def wGeom : RiverGeom := { dist := fun _ => 0, proj := fun p => p.1 }

/-- A sample river geometry at exactly distance 1000 of every point. -/
def wGeomEq : RiverGeom := { dist := fun _ => 1000, proj := fun p => p.1 }

/-- A sample rule table: 0-10 of rain needs basic skills, more than 10
needs advanced skills, both for weather "Rain". -/
def wRules : List RainToSkill :=
  [ { rain := { start := EFloat.val 0, stop := EFloat.val 10, inc := true },
      weather := "Rain", skill := SkillLevel.BASIC_SKILLS },
    { rain := { start := EFloat.val 10, stop := EFloat.posInf, inc := false },
      weather := "Rain", skill := SkillLevel.ADVANCED_SKILLS } ]

/-- A sample environment: the identity projection, one river "R" with
`wGeom`, the rule table `wRules`, and the default thresholds. -/
def wEnv : Env :=
  { PROJECT := fun la lo => (la, lo), rivers := [("R", wGeom)], rules := wRules,
    rain_threshold := 50, river_margin := 1000 }

/-- The environment with the river at exactly `river_margin` distance. -/
def wEnvEq : Env :=
  { PROJECT := fun la lo => (la, lo), rivers := [("R", wGeomEq)], rules := wRules,
    rain_threshold := 50, river_margin := 1000 }

/-- Sample locations and observation records. -/
def wLocA : Location := { city_name := "A", lat := 1, lon := 2 }

def wLocB : Location := { city_name := "B", lat := 3, lon := 4 }

def wA1 : Record :=
  { city_name := "A", dt := 3600, lat := 1, lon := 2, rain_1h := some 60,
    weather_description := "Rain" }

def wA2 : Record :=
  { city_name := "A", dt := 7200, lat := 1, lon := 2, rain_1h := some 3,
    weather_description := "Rain" }

def wA3 : Record :=
  { city_name := "A", dt := 14400, lat := 1, lon := 2, rain_1h := some 3,
    weather_description := "Rain" }

def wB1 : Record :=
  { city_name := "B", dt := 3600, lat := 3, lon := 4, rain_1h := some 5,
    weather_description := "Rain" }

def wC1 : Record :=
  { city_name := "A", dt := 3600, lat := 1, lon := 2, rain_1h := some 1,
    weather_description := "x" }

def wC2 : Record :=
  { city_name := "A", dt := 3600, lat := 1, lon := 2, rain_1h := some 2,
    weather_description := "x" }

def wW2 : Record :=
  { city_name := "A", dt := 3600, lat := 1, lon := 2, rain_1h := some 60,
    weather_description := "Sun" }

/-- The window of location A after its first observation. -/
def wD1 : Data := { loc := wLocA, dt_from := 0, dt_to := 3600, rain_24h := [60] }

/-- The window of location A after its first two observations. -/
def wD4 : Data := { loc := wLocA, dt_from := 0, dt_to := 7200, rain_24h := [60, 3] }

/-- The loop state after processing A's first two observations. -/
def wSt4 : St := stOf (runGroups wEnv initSt (groupRecords (sortRecords [wA1, wA2])))

section AssocLemmas

variable {α β : Type} [DecidableEq α]

theorem alookup_aset_self (l : List (α × β)) (k : α) (v : β) :
    alookup (aset l k v) k = some v := by
  induction l with
  | nil => simp [aset, alookup]
  | cons kv t ih =>
    by_cases h : kv.1 = k
    · simp [aset, h, alookup]
    · simp [aset, h, alookup, ih]

theorem alookup_aset_ne (l : List (α × β)) (k k2 : α) (v : β) (h : k2 ≠ k) :
    alookup (aset l k v) k2 = alookup l k2 := by
  induction l with
  | nil => simp [aset, alookup, Ne.symm h]
  | cons kv t ih =>
    by_cases hk : kv.1 = k
    · subst hk
      simp [aset, alookup, Ne.symm h]
    · simp [aset, hk, alookup, ih]

theorem mem_insertSet (l : List α) (x y : α) :
    y ∈ insertSet l x ↔ y ∈ l ∨ y = x := by
  by_cases h : x ∈ l
  · simp only [insertSet, if_pos h]
    constructor
    · exact Or.inl
    · rintro (hy | rfl) <;> [exact hy; exact h]
  · simp [insertSet, if_neg h]

end AssocLemmas

theorem alookup_asetMin_self (l : List (String × ℚ)) (k : String) (v : ℚ) :
    alookup (asetMin l k v) k =
      some (match alookup l k with | none => v | some a => qmin a v) := by
  unfold asetMin
  cases alookup l k <;> simp [alookup_aset_self]

theorem alookup_asetMin_ne (l : List (String × ℚ)) (k k2 : String) (v : ℚ) (h : k2 ≠ k) :
    alookup (asetMin l k v) k2 = alookup l k2 := by
  unfold asetMin
  cases alookup l k <;> simp [alookup_aset_ne _ _ _ _ h]

theorem push24_nil (v : ℚ) : push24 [] v = [v] := rfl

theorem push24_length_le (l : List ℚ) (v : ℚ) (h : l.length ≤ 24) :
    (push24 l v).length = min (l.length + 1) 24 := by
  simp only [push24]
  by_cases h24 : 24 < (l ++ [v]).length
  · rw [if_pos h24]
    simp only [List.length_drop, List.length_append, List.length_singleton]
    simp only [List.length_append, List.length_singleton] at h24
    omega
  · rw [if_neg h24]
    simp only [List.length_append, List.length_singleton]
    simp only [List.length_append, List.length_singleton] at h24
    omega

theorem foldl_push24 (vs : List ℚ) :
    List.foldl push24 [] vs = vs.drop (vs.length - 24) := by
  induction vs using List.reverseRecOn with
  | nil => simp
  | append_singleton vs v ih =>
    rw [List.foldl_append, List.foldl_cons, List.foldl_nil, ih]
    by_cases h : vs.length < 24
    · have h24 : ¬ 24 < (vs ++ [v]).length := by
        simp only [List.length_append, List.length_singleton]; omega
      have h1 : vs.length - 24 = 0 := by omega
      have h2 : (vs ++ [v]).length - 24 = 0 := by
        simp only [List.length_append, List.length_singleton]; omega
      rw [h1, List.drop_zero, h2, List.drop_zero]
      simp only [push24]
      rw [if_neg h24]
    · push_neg at h
      have hlen : (vs.drop (vs.length - 24)).length = 24 := by
        rw [List.length_drop]; omega
      have h25 : 24 < (vs.drop (vs.length - 24) ++ [v]).length := by
        simp only [List.length_append, List.length_singleton, hlen]; omega
      simp only [push24]
      rw [if_pos h25]
      have hd1 : (vs.drop (vs.length - 24) ++ [v]).drop 1 =
          (vs.drop (vs.length - 24)).drop 1 ++ [v] := by
        apply List.drop_append_of_le_length
        omega
      rw [hd1, List.drop_drop]
      have hlen2 : (vs ++ [v]).length - 24 = vs.length + 1 - 24 := by
        simp only [List.length_append, List.length_singleton]
      rw [hlen2]
      have hle : vs.length + 1 - 24 ≤ vs.length := by omega
      rw [List.drop_append_of_le_length hle]
      have harith : vs.length - 24 + 1 = vs.length + 1 - 24 := by omega
      rw [harith]

theorem windowStep_extend (loc : Location) (d : Data) (r : Record)
    (_hloc : d.loc = loc) (hdt : r.dt = d.dt_to + 3600) :
    windowStep loc (some d) r =
      Except.ok { d with dt_to := r.dt, rain_24h := push24 d.rain_24h (rainValue r) } := by
  simp only [windowStep]
  rw [if_pos (Or.inr hdt)]

theorem windowStep_break (loc : Location) (d : Data) (r : Record)
    (hloc : d.loc = loc) (hdt : r.dt ≠ d.dt_to + 3600) :
    windowStep loc (some d) r = Except.error "ContinuityError" := by
  have hcond : ¬ (loc ≠ d.loc ∨ r.dt = d.dt_to + 3600) := by
    push_neg
    exact ⟨hloc.symm, hdt⟩
  simp only [windowStep]
  rw [if_neg hcond]

theorem windowRunFrom_some (loc : Location) :
    ∀ (recs : List Record) (d : Data), d.loc = loc →
    contigFromB d.dt_to recs = true →
    windowRunFrom loc (some d) recs =
      Except.ok (some { loc := d.loc, dt_from := d.dt_from,
                        dt_to := d.dt_to + 3600 * (recs.length : Int),
                        rain_24h := List.foldl push24 d.rain_24h (recs.map rainValue) }) := by
  intro recs
  induction recs with
  | nil =>
    intro d _ _
    simp only [windowRunFrom, List.length_nil, Nat.cast_zero, mul_zero, add_zero,
      List.map_nil, List.foldl_nil]
  | cons r rest ih =>
    intro d hloc hc
    simp only [contigFromB, Bool.and_eq_true, decide_eq_true_eq] at hc
    obtain ⟨hdt, hrest⟩ := hc
    simp only [windowRunFrom, windowStep_extend loc d r hloc hdt]
    rw [ih { d with dt_to := r.dt, rain_24h := push24 d.rain_24h (rainValue r) } hloc hrest]
    have hdt2 : d.dt_to + 3600 * (((r :: rest).length : Nat) : Int) =
        r.dt + 3600 * ((rest.length : Nat) : Int) := by
      simp only [List.length_cons]
      push_cast
      omega
    simp only [List.map_cons, List.foldl_cons, hdt2]

theorem windowRunFrom_fresh (loc : Location) (r : Record) (rest : List Record)
    (hc : contigFromB r.dt rest = true) :
    windowRunFrom loc none (r :: rest) =
      Except.ok (some { loc := loc, dt_from := r.dt - 3600,
                        dt_to := r.dt + 3600 * (rest.length : Int),
                        rain_24h := List.foldl push24 [] ((r :: rest).map rainValue) }) := by
  simp only [windowRunFrom, windowStep]
  rw [windowRunFrom_some loc rest _ rfl hc]
  simp only [List.map_cons, List.foldl_cons, push24_nil]

theorem stepGroup_nil (env : Env) (st : St) : stepGroup env st [] = Except.ok st := rfl

theorem stepGroup_ok_elim {env : Env} {st : St} {r : Record} {rest : List Record} {st1 : St}
    (h : stepGroup env st (r :: rest) = Except.ok st1) :
    ∃ d, windowStep (locOf r) (alookup st.data (locOf r)) r = Except.ok d ∧
      st1 = applyGroup env st r rest d := by
  simp only [stepGroup] at h
  split at h
  · cases h
  · rename_i d hw
    cases h
    exact ⟨d, hw, rfl⟩

theorem stepGroup_of_windowStep {env : Env} {st : St} {r : Record} {rest : List Record} {d : Data}
    (h : windowStep (locOf r) (alookup st.data (locOf r)) r = Except.ok d) :
    stepGroup env st (r :: rest) = Except.ok (applyGroup env st r rest d) := by
  simp only [stepGroup, h]

theorem stepGroup_of_windowStep_error {env : Env} {st : St} {r : Record} {rest : List Record}
    {e : String} (h : windowStep (locOf r) (alookup st.data (locOf r)) r = Except.error e) :
    stepGroup env st (r :: rest) = Except.error e := by
  simp only [stepGroup, h]

theorem runGroups_nil (env : Env) (st : St) : runGroups env st [] = Except.ok st := rfl

theorem runGroups_cons_ok {env : Env} {st st1 : St} {g : List Record} {gs : List (List Record)}
    (h : stepGroup env st g = Except.ok st1) :
    runGroups env st (g :: gs) = runGroups env st1 gs := by
  simp only [runGroups, h]

theorem runGroups_cons_error {env : Env} {st : St} {g : List Record} {gs : List (List Record)}
    {e : String} (h : stepGroup env st g = Except.error e) :
    runGroups env st (g :: gs) = Except.error e := by
  simp only [runGroups, h]

theorem runGroups_cons_elim {env : Env} {st st2 : St} {g : List Record} {gs : List (List Record)}
    (h : runGroups env st (g :: gs) = Except.ok st2) :
    ∃ st1, stepGroup env st g = Except.ok st1 ∧ runGroups env st1 gs = Except.ok st2 := by
  simp only [runGroups] at h
  split at h
  · cases h
  · rename_i st1 hg
    exact ⟨st1, hg, h⟩

/-- Projection of the whole run onto one location: the `data` entry of
`loc` evolves exactly by the window updates of the groups whose location
is `loc`. -/
theorem runGroups_data_proj (env : Env) (loc : Location) :
    ∀ (gs : List (List Record)) (st st2 : St),
    runGroups env st gs = Except.ok st2 →
    windowRunFrom loc (alookup st.data loc) (locFirsts loc gs) =
      Except.ok (alookup st2.data loc) := by
  intro gs
  induction gs with
  | nil =>
    intro st st2 h
    rw [runGroups_nil] at h
    cases h
    simp [locFirsts, windowRunFrom]
  | cons g gs ih =>
    intro st st2 h
    obtain ⟨st1, hg, hrest⟩ := runGroups_cons_elim h
    cases g with
    | nil =>
      rw [stepGroup_nil] at hg
      cases hg
      simpa [locFirsts, List.filterMap_cons] using ih st st2 hrest
    | cons r grest =>
      obtain ⟨d, hw, hst1⟩ := stepGroup_ok_elim hg
      subst hst1
      by_cases hl : locOf r = loc
      · rw [hl] at hw
        have hfirsts : locFirsts loc ((r :: grest) :: gs) = r :: locFirsts loc gs := by
          simp [locFirsts, List.filterMap_cons, hl]
        rw [hfirsts]
        have hdata : alookup (applyGroup env st r grest d).data loc = some d := by
          simp only [applyGroup]
          rw [← hl, alookup_aset_self]
        have hih := ih (applyGroup env st r grest d) st2 hrest
        rw [hdata] at hih
        simp only [windowRunFrom, hw]
        exact hih
      · have hfirsts : locFirsts loc ((r :: grest) :: gs) = locFirsts loc gs := by
          simp [locFirsts, List.filterMap_cons, hl]
        rw [hfirsts]
        have hdata : alookup (applyGroup env st r grest d).data loc = alookup st.data loc := by
          simp only [applyGroup]
          exact alookup_aset_ne _ _ _ _ (fun he => hl he.symm)
        have hih := ih (applyGroup env st r grest d) st2 hrest
        rw [hdata] at hih
        exact hih

theorem rain_flood_step {env : Env} {st st1 : St} {g : List Record}
    (h : stepGroup env st g = Except.ok st1) (loc : Location) :
    loc ∈ st1.rain_flood ↔ loc ∈ st.rain_flood ∨ floodCond env st g loc := by
  cases g with
  | nil =>
    rw [stepGroup_nil] at h
    cases h
    simp [floodCond]
  | cons r rest =>
    obtain ⟨d, hw, hst⟩ := stepGroup_ok_elim h
    subst hst
    simp only [applyGroup, floodCond]
    by_cases hth : env.rain_threshold ≤ qsum d.rain_24h
    · rw [if_pos hth, mem_insertSet]
      constructor
      · rintro (hmem | rfl)
        · exact Or.inl hmem
        · exact Or.inr ⟨rfl, d, hw, hth⟩
      · rintro (hmem | ⟨rfl, d2, hw2, hth2⟩)
        · exact Or.inl hmem
        · exact Or.inr rfl
    · rw [if_neg hth]
      constructor
      · exact Or.inl
      · rintro (hmem | ⟨rfl, d2, hw2, hth2⟩)
        · exact hmem
        · rw [hw] at hw2
          cases hw2
          exact absurd hth2 hth

theorem rain_flood_runGroups (env : Env) :
    ∀ (gs : List (List Record)) (st st2 : St),
    runGroups env st gs = Except.ok st2 → ∀ loc,
    (loc ∈ st2.rain_flood ↔ loc ∈ st.rain_flood ∨
      ∃ gs1 g gs2, gs = gs1 ++ g :: gs2 ∧
        ∃ stm, runGroups env st gs1 = Except.ok stm ∧ floodCond env stm g loc) := by
  intro gs
  induction gs with
  | nil =>
    intro st st2 h loc
    rw [runGroups_nil] at h
    cases h
    constructor
    · exact Or.inl
    · rintro (hmem | ⟨gs1, g, gs2, heq, _⟩)
      · exact hmem
      · exact absurd heq.symm (by simp)
  | cons g gs ih =>
    intro st st2 h loc
    obtain ⟨st1, hg, hrest⟩ := runGroups_cons_elim h
    rw [ih st1 st2 hrest loc, rain_flood_step hg loc]
    constructor
    · rintro ((hmem | hcond) | ⟨gs1, g2, gs2, rfl, stm, hpre, hcond⟩)
      · exact Or.inl hmem
      · exact Or.inr ⟨[], g, gs, rfl, st, runGroups_nil env st, hcond⟩
      · refine Or.inr ⟨g :: gs1, g2, gs2, rfl, stm, ?_, hcond⟩
        rw [runGroups_cons_ok hg]
        exact hpre
    · rintro (hmem | ⟨gs1, g2, gs2, heq, stm, hpre, hcond⟩)
      · exact Or.inl (Or.inl hmem)
      · cases gs1 with
        | nil =>
          simp only [List.nil_append] at heq
          injection heq with h1 h2
          subst h1; subst h2
          rw [runGroups_nil] at hpre
          cases hpre
          exact Or.inl (Or.inr hcond)
        | cons g1 gs1 =>
          simp only [List.cons_append] at heq
          injection heq with h1 h2
          subst h1; subst h2
          rw [runGroups_cons_ok hg] at hpre
          exact Or.inr ⟨gs1, g2, gs2, rfl, stm, hpre, hcond⟩

theorem anchorLe_refl (a : Option ℚ) : anchorLe a a := by
  cases a <;> simp [anchorLe]

theorem anchorLe_trans {a b c : Option ℚ} (h1 : anchorLe a b) (h2 : anchorLe b c) :
    anchorLe a c := by
  cases a <;> cases b <;> cases c <;> simp_all [anchorLe]
  exact le_trans h1 h2

theorem qadd_eq_add (a b : ℚ) : qadd a b = a + b := (Rat.add_def' a b).symm

theorem qsum_foldl (l : List ℚ) : ∀ a : ℚ, l.foldl qadd a = a + l.sum := by
  induction l with
  | nil => intro a; simp
  | cons x xs ih =>
    intro a
    rw [List.foldl_cons, ih (qadd a x), qadd_eq_add, List.sum_cons]
    ring

theorem qsum_eq_sum (l : List ℚ) : qsum l = l.sum := by
  rw [qsum, qsum_foldl]
  simp

theorem qmin_eq_min (a b : ℚ) : qmin a b = min a b := by
  rw [qmin, min_def]

theorem qmin_le_left (a b : ℚ) : qmin a b ≤ a := by
  rw [qmin]
  split
  · exact le_refl a
  · exact le_of_not_le (by assumption)

theorem anchorLe_asetMin (l : List (String × ℚ)) (k : String) (v : ℚ) (k2 : String) :
    anchorLe (alookup (asetMin l k v) k2) (alookup l k2) := by
  by_cases hk : k2 = k
  · subst hk
    rw [alookup_asetMin_self]
    cases h : alookup l k2 with
    | none => simp [anchorLe]
    | some a => simp [anchorLe, qmin_le_left]
  · rw [alookup_asetMin_ne _ _ _ _ hk]
    exact anchorLe_refl _

theorem updateAnchors_cons (nr : String × RiverGeom) (rest : List (String × RiverGeom))
    (margin : ℚ) (p : ℚ × ℚ) (anchors : List (String × ℚ)) :
    updateAnchors (nr :: rest) margin p anchors =
      updateAnchors rest margin p
        (if nr.2.dist p < margin then asetMin anchors nr.1 (nr.2.proj p) else anchors) := rfl

theorem anchorLe_updateAnchors (margin : ℚ) (p : ℚ × ℚ) :
    ∀ (rivers : List (String × RiverGeom)) (anchors : List (String × ℚ)) (name : String),
    anchorLe (alookup (updateAnchors rivers margin p anchors) name) (alookup anchors name) := by
  intro rivers
  induction rivers with
  | nil => intro anchors name; exact anchorLe_refl _
  | cons nr rest ih =>
    intro anchors name
    rw [updateAnchors_cons]
    have hstep : anchorLe
        (alookup (if nr.2.dist p < margin then asetMin anchors nr.1 (nr.2.proj p) else anchors) name)
        (alookup anchors name) := by
      split
      · exact anchorLe_asetMin _ _ _ _
      · exact anchorLe_refl _
    exact anchorLe_trans (ih _ name) hstep

theorem anchorLe_stepGroup {env : Env} {st st1 : St} {g : List Record}
    (h : stepGroup env st g = Except.ok st1) (name : String) :
    anchorLe (alookup st1.river_flood name) (alookup st.river_flood name) := by
  cases g with
  | nil =>
    rw [stepGroup_nil] at h
    cases h
    exact anchorLe_refl _
  | cons r rest =>
    obtain ⟨d, hw, hst⟩ := stepGroup_ok_elim h
    subst hst
    simp only [applyGroup]
    split
    · exact anchorLe_updateAnchors _ _ _ _ _
    · exact anchorLe_refl _

theorem anchorLe_runGroups (env : Env) :
    ∀ (gs : List (List Record)) (st st2 : St),
    runGroups env st gs = Except.ok st2 → ∀ name,
    anchorLe (alookup st2.river_flood name) (alookup st.river_flood name) := by
  intro gs
  induction gs with
  | nil =>
    intro st st2 h name
    rw [runGroups_nil] at h
    cases h
    exact anchorLe_refl _
  | cons g gs ih =>
    intro st st2 h name
    obtain ⟨st1, hg, hrest⟩ := runGroups_cons_elim h
    exact anchorLe_trans (ih st1 st2 hrest name) (anchorLe_stepGroup hg name)

theorem NONE_skill_le (s : SkillLevel) : SkillLevel.le SkillLevel.NONE s :=
  Nat.zero_le _

theorem maxS_le_iff (a b c : SkillLevel) :
    SkillLevel.le (maxS a b) c ↔ SkillLevel.le a c ∧ SkillLevel.le b c := by
  unfold maxS SkillLevel.le
  split <;> omega

theorem ruleFold_cons (x : RainToSkill) (rules : List RainToSkill) (v : ℚ) (r : Record)
    (s : SkillLevel) :
    ruleFold (x :: rules) v r s =
      ruleFold rules v r
        (if x.weather = r.weather_description ∧ x.rain.check v = true
         then maxS s x.skill else s) := rfl

theorem ruleFold_le_iff (v : ℚ) (r : Record) :
    ∀ (rules : List RainToSkill) (s c : SkillLevel),
    SkillLevel.le (ruleFold rules v r s) c ↔
      SkillLevel.le s c ∧ ∀ r2s ∈ rules,
        (r2s.weather = r.weather_description ∧ r2s.rain.check v = true) →
        SkillLevel.le r2s.skill c := by
  intro rules
  induction rules with
  | nil => intro s c; simp [ruleFold]
  | cons x rules ih =>
    intro s c
    rw [ruleFold_cons, ih, List.forall_mem_cons]
    by_cases hm : x.weather = r.weather_description ∧ x.rain.check v = true
    · rw [if_pos hm, maxS_le_iff]
      constructor
      · rintro ⟨⟨h1, h2⟩, h3⟩
        exact ⟨h1, fun _ => h2, h3⟩
      · rintro ⟨h1, h2, h3⟩
        exact ⟨⟨h1, h2 hm⟩, h3⟩
    · rw [if_neg hm]
      constructor
      · rintro ⟨h1, h3⟩
        exact ⟨h1, fun hmm => absurd hmm hm, h3⟩
      · rintro ⟨h1, _, h3⟩
        exact ⟨h1, h3⟩

theorem skillFold_le_iff (rules : List RainToSkill) (v : ℚ) :
    ∀ (recs : List Record) (s c : SkillLevel),
    SkillLevel.le (recs.foldl (fun s r => ruleFold rules v r s) s) c ↔
      SkillLevel.le s c ∧ ∀ r ∈ recs, ∀ r2s ∈ rules,
        (r2s.weather = r.weather_description ∧ r2s.rain.check v = true) →
        SkillLevel.le r2s.skill c := by
  intro recs
  induction recs with
  | nil => intro s c; simp
  | cons r recs ih =>
    intro s c
    rw [List.foldl_cons, ih, ruleFold_le_iff, List.forall_mem_cons]
    tauto

theorem groupSkill_le_iff (rules : List RainToSkill) (v : ℚ) (recs : List Record)
    (c : SkillLevel) :
    SkillLevel.le (groupSkill rules v recs) c ↔
      ∀ r ∈ recs, ∀ r2s ∈ rules,
        (r2s.weather = r.weather_description ∧ r2s.rain.check v = true) →
        SkillLevel.le r2s.skill c := by
  unfold groupSkill
  rw [skillFold_le_iff]
  simp [NONE_skill_le]

theorem ruleFold_attain (v : ℚ) (r : Record) :
    ∀ (rules : List RainToSkill) (s : SkillLevel),
    ruleFold rules v r s = s ∨
      ∃ r2s ∈ rules, (r2s.weather = r.weather_description ∧ r2s.rain.check v = true) ∧
        ruleFold rules v r s = r2s.skill := by
  intro rules
  induction rules with
  | nil => intro s; exact Or.inl rfl
  | cons x rules ih =>
    intro s
    rw [ruleFold_cons]
    by_cases hm : x.weather = r.weather_description ∧ x.rain.check v = true
    · rw [if_pos hm]
      rcases ih (maxS s x.skill) with h | ⟨r2s, hmem, hm2, heq⟩
      · rw [h]
        unfold maxS
        split
        · exact Or.inl rfl
        · exact Or.inr ⟨x, List.mem_cons_self _ _, hm, rfl⟩
      · exact Or.inr ⟨r2s, List.mem_cons_of_mem _ hmem, hm2, heq⟩
    · rw [if_neg hm]
      rcases ih s with h | ⟨r2s, hmem, hm2, heq⟩
      · exact Or.inl h
      · exact Or.inr ⟨r2s, List.mem_cons_of_mem _ hmem, hm2, heq⟩

theorem skillFold_attain (rules : List RainToSkill) (v : ℚ) :
    ∀ (recs : List Record) (s : SkillLevel),
    recs.foldl (fun s r => ruleFold rules v r s) s = s ∨
      ∃ r ∈ recs, ∃ r2s ∈ rules,
        (r2s.weather = r.weather_description ∧ r2s.rain.check v = true) ∧
        recs.foldl (fun s r => ruleFold rules v r s) s = r2s.skill := by
  intro recs
  induction recs with
  | nil => intro s; exact Or.inl rfl
  | cons r recs ih =>
    intro s
    rw [List.foldl_cons]
    rcases ih (ruleFold rules v r s) with h | ⟨r2, hr2, r2s, hmem, hm2, heq⟩
    · rw [h]
      rcases ruleFold_attain v r rules s with h2 | ⟨r2s, hmem, hm2, heq⟩
      · exact Or.inl h2
      · exact Or.inr ⟨r, List.mem_cons_self _ _, r2s, hmem, hm2, heq⟩
    · exact Or.inr ⟨r2, List.mem_cons_of_mem _ hr2, r2s, hmem, hm2, heq⟩

theorem groupSkill_attain (rules : List RainToSkill) (v : ℚ) (recs : List Record) :
    groupSkill rules v recs = SkillLevel.NONE ∨
      ∃ r ∈ recs, ∃ r2s ∈ rules,
        (r2s.weather = r.weather_description ∧ r2s.rain.check v = true) ∧
        groupSkill rules v recs = r2s.skill := by
  unfold groupSkill
  exact skillFold_attain rules v recs SkillLevel.NONE

theorem groupRecords_cons (r : Record) (rs : List Record) :
    groupRecords (r :: rs) =
      match groupRecords rs with
      | [] => [[r]]
      | [] :: gs => [r] :: gs
      | (r2 :: g) :: gs =>
        if groupKey r = groupKey r2 then (r :: r2 :: g) :: gs
        else [r] :: (r2 :: g) :: gs := rfl

theorem groupRecords_ne_nil (l : List Record) : ∀ g ∈ groupRecords l, g ≠ [] := by
  induction l with
  | nil => simp [groupRecords]
  | cons r rs ih =>
    rw [groupRecords_cons]
    split
    · simp
    · rename_i gs heq
      rw [heq] at ih
      exact absurd rfl (ih [] (List.mem_cons_self _ _))
    · rename_i r2 g0 gs heq
      rw [heq] at ih
      split
      · intro g hgmem
        rcases List.mem_cons.mp hgmem with rfl | hmem
        · simp
        · exact ih g (List.mem_cons_of_mem _ hmem)
      · intro g hgmem
        rcases List.mem_cons.mp hgmem with rfl | hmem
        · simp
        · exact ih g hmem

theorem groupRecords_flatten (l : List Record) : (groupRecords l).flatten = l := by
  induction l with
  | nil => rfl
  | cons r rs ih =>
    rw [groupRecords_cons]
    split
    · rename_i heq
      rw [heq] at ih
      simp only [List.flatten_nil] at ih
      simp [← ih]
    · rename_i gs heq
      exact absurd rfl (groupRecords_ne_nil rs []
        (by rw [heq]; exact List.mem_cons_self _ _))
    · rename_i r2 g0 gs heq
      rw [heq] at ih
      simp only [List.flatten_cons] at ih
      split
      · simp only [List.flatten_cons]
        rw [List.cons_append, ih]
      · simp only [List.flatten_cons]
        rw [List.singleton_append, ih]

theorem groupRecords_key (l : List Record) :
    ∀ g ∈ groupRecords l, ∀ a ∈ g, ∀ b ∈ g, groupKey a = groupKey b := by
  induction l with
  | nil => simp [groupRecords]
  | cons r rs ih =>
    rw [groupRecords_cons]
    split
    · intro g hgmem a ha b hb
      rw [List.mem_singleton] at hgmem
      subst hgmem
      rw [List.mem_singleton] at ha hb
      subst ha; subst hb
      rfl
    · rename_i gs heq
      exact absurd rfl (groupRecords_ne_nil rs []
        (by rw [heq]; exact List.mem_cons_self _ _))
    · rename_i r2 g0 gs heq
      rw [heq] at ih
      split
      · rename_i hk
        intro g hgmem a ha b hb
        rcases List.mem_cons.mp hgmem with rfl | hmem
        · have hall : ∀ x ∈ r :: r2 :: g0, groupKey x = groupKey r2 := by
            intro x hx
            rcases List.mem_cons.mp hx with rfl | hx2
            · exact hk
            · exact ih (r2 :: g0) (List.mem_cons_self _ _) x hx2 r2 (List.mem_cons_self _ _)
          rw [hall a ha, hall b hb]
        · exact ih g (List.mem_cons_of_mem _ hmem) a ha b hb
      · intro g hgmem a ha b hb
        rcases List.mem_cons.mp hgmem with rfl | hmem
        · rw [List.mem_singleton] at ha hb
          subst ha; subst hb
          rfl
        · exact ih g hmem a ha b hb

theorem groupRecords_chain (l : List Record) :
    List.Chain' (fun g1 g2 => ∀ a ∈ g1.getLast?, ∀ b ∈ g2.head?, groupKey a ≠ groupKey b)
      (groupRecords l) := by
  induction l with
  | nil => simp [groupRecords]
  | cons r rs ih =>
    rw [groupRecords_cons]
    split
    · simp
    · rename_i gs heq
      exact absurd rfl (groupRecords_ne_nil rs []
        (by rw [heq]; exact List.mem_cons_self _ _))
    · rename_i r2 g0 gs heq
      rw [heq] at ih
      split
      · rcases List.chain'_cons'.mp ih with ⟨hrel, hchain⟩
        refine List.chain'_cons'.mpr ⟨?_, hchain⟩
        intro g2 hg2 a ha b hb
        rw [List.getLast?_cons_cons] at ha
        exact hrel g2 hg2 a ha b hb
      · rename_i hk
        refine List.chain'_cons'.mpr ⟨?_, ih⟩
        intro g2 hg2 a ha b hb
        simp only [List.head?_cons, Option.mem_def, Option.some.injEq] at hg2
        subst hg2
        simp only [List.getLast?_singleton, Option.mem_def, Option.some.injEq] at ha
        simp only [List.head?_cons, Option.mem_def, Option.some.injEq] at hb
        subst ha
        subst hb
        exact hk

theorem groupRecords_all_same (r : Record) :
    ∀ (l : List Record), (∀ a ∈ r :: l, groupKey a = groupKey r) →
    groupRecords (r :: l) = [r :: l] := by
  intro l
  induction l generalizing r with
  | nil => intro _; rfl
  | cons r2 l ih =>
    intro h
    have h2 : ∀ a ∈ r2 :: l, groupKey a = groupKey r2 := by
      intro a ha
      rw [h a (List.mem_cons_of_mem _ ha), ← h r2 (by simp)]
    have hgr : groupRecords (r2 :: l) = [r2 :: l] := ih r2 h2
    rw [groupRecords_cons]
    simp only [hgr]
    rw [if_pos (h r2 (by simp)).symm]

theorem insertRec_perm (x : Record) (l : List Record) : (insertRec x l).Perm (x :: l) := by
  induction l with
  | nil => exact List.Perm.refl _
  | cons y ys ih =>
    simp only [insertRec]
    split
    · exact List.Perm.refl _
    · exact (ih.cons y).trans (List.Perm.swap x y ys)

theorem sortRecords_perm (l : List Record) : (sortRecords l).Perm l := by
  induction l with
  | nil => exact List.Perm.refl _
  | cons x xs ih => exact (insertRec_perm x (sortRecords xs)).trans (ih.cons x)

theorem mem_sortRecords (l : List Record) (x : Record) :
    x ∈ sortRecords l ↔ x ∈ l :=
  (sortRecords_perm l).mem_iff

theorem length_sortRecords (l : List Record) :
    (sortRecords l).length = l.length :=
  (sortRecords_perm l).length_eq

theorem mem_riverFloodPairs (env : Env) (st : St) (loc : Location) (name : String) :
    (loc, name) ∈ riverFloodPairs env st ↔
      ((∃ d, (loc, d) ∈ st.data) ∧ loc ∉ st.rain_flood ∧
        ∃ g, (name, g) ∈ env.rivers ∧
          g.dist (env.PROJECT loc.lat loc.lon) < env.river_margin ∧
          ∃ a, alookup st.river_flood name = some a ∧
            a ≤ g.proj (env.PROJECT loc.lat loc.lon)) := by
  unfold riverFloodPairs
  rw [List.mem_flatMap]
  constructor
  · rintro ⟨ld, hld, hmem⟩
    rw [List.mem_filter] at hld
    obtain ⟨hld_data, hld_rain⟩ := hld
    rw [List.mem_map] at hmem
    obtain ⟨nr, hnr, heq⟩ := hmem
    rw [List.mem_filter] at hnr
    obtain ⟨hnr_mem, hnr_cond⟩ := hnr
    rw [Prod.mk.injEq] at heq
    obtain ⟨h1, h2⟩ := heq
    subst h1; subst h2
    rw [Bool.and_eq_true, decide_eq_true_eq] at hnr_cond
    obtain ⟨hdist, hanchor⟩ := hnr_cond
    simp only [Bool.not_eq_eq_eq_not, Bool.not_true, decide_eq_false_iff_not] at hld_rain
    refine ⟨⟨ld.2, hld_data⟩, hld_rain, nr.2, hnr_mem, hdist, ?_⟩
    cases halook : alookup st.river_flood nr.1 with
    | none => rw [halook] at hanchor; cases hanchor
    | some a =>
      rw [halook] at hanchor
      rw [decide_eq_true_eq] at hanchor
      exact ⟨a, rfl, hanchor⟩
  · rintro ⟨⟨d, hd⟩, hrain, g, hg, hdist, a, halook, hle⟩
    refine ⟨(loc, d), ?_, ?_⟩
    · rw [List.mem_filter]
      refine ⟨hd, ?_⟩
      simp only [Bool.not_eq_eq_eq_not, Bool.not_true, decide_eq_false_iff_not]
      exact hrain
    · rw [List.mem_map]
      refine ⟨(name, g), ?_, rfl⟩
      rw [List.mem_filter]
      refine ⟨hg, ?_⟩
      rw [Bool.and_eq_true, decide_eq_true_eq]
      refine ⟨hdist, ?_⟩
      rw [halook, decide_eq_true_eq]
      exact hle

theorem runMain_ok_elim {env : Env} {records : List Record} {res : Result}
    (h : runMain env records = Except.ok res) :
    ∃ st, runGroups env initSt (groupRecords (sortRecords records)) = Except.ok st ∧
      res.data = st.data ∧ res.rain_flood = st.rain_flood ∧
      res.river_flood = st.river_flood ∧ res.skills = st.skills ∧
      res.pairs = riverFloodPairs env st := by
  simp only [runMain] at h
  split at h
  · cases h
  · rename_i st hst
    cases h
    exact ⟨st, hst, rfl, rfl, rfl, rfl, rfl⟩

theorem runMain_of_runGroups {env : Env} {records : List Record} {st : St}
    (h : runGroups env initSt (groupRecords (sortRecords records)) = Except.ok st) :
    runMain env records =
      Except.ok { data := st.data, rain_flood := st.rain_flood,
                  river_flood := st.river_flood, skills := st.skills,
                  pairs := riverFloodPairs env st } := by
  simp only [runMain, h]

theorem updateAnchors_no_close (margin : ℚ) (p : ℚ × ℚ) (name : String) :
    ∀ (rivers : List (String × RiverGeom)) (anchors : List (String × ℚ)),
    (∀ g, (name, g) ∈ rivers → ¬ g.dist p < margin) →
    alookup (updateAnchors rivers margin p anchors) name = alookup anchors name := by
  intro rivers
  induction rivers with
  | nil => intro anchors _; rfl
  | cons nr rest ih =>
    intro anchors hall
    rw [updateAnchors_cons]
    have hstep : alookup
        (if nr.2.dist p < margin then asetMin anchors nr.1 (nr.2.proj p) else anchors) name =
        alookup anchors name := by
      split
      · rename_i hdist
        by_cases hn : name = nr.1
        · subst hn
          exact absurd hdist (hall nr.2 (List.mem_cons_self _ _))
        · exact alookup_asetMin_ne _ _ _ _ hn
      · rfl
    rw [ih _ (fun g hg => hall g (List.mem_cons_of_mem _ hg)), hstep]

/-- Invariant: every tracked window's `loc` field equals its key in `data`. -/
theorem dataLoc_runGroups (env : Env) :
    ∀ (gs : List (List Record)) (st st2 : St),
    runGroups env st gs = Except.ok st2 →
    (∀ loc d, alookup st.data loc = some d → d.loc = loc) →
    (∀ loc d, alookup st2.data loc = some d → d.loc = loc) := by
  intro gs
  induction gs with
  | nil =>
    intro st st2 h hinv
    rw [runGroups_nil] at h
    cases h
    exact hinv
  | cons g gs ih =>
    intro st st2 h hinv
    obtain ⟨st1, hg, hrest⟩ := runGroups_cons_elim h
    refine ih st1 st2 hrest ?_
    cases g with
    | nil =>
      rw [stepGroup_nil] at hg
      cases hg
      exact hinv
    | cons r grest =>
      obtain ⟨d, hw, hst⟩ := stepGroup_ok_elim hg
      subst hst
      intro loc d2 hd2
      simp only [applyGroup] at hd2
      by_cases hl : locOf r = loc
      · subst hl
        rw [alookup_aset_self] at hd2
        cases hd2
        -- d came from windowStep at key locOf r
        cases hlook : alookup st.data (locOf r) with
        | none =>
          rw [hlook] at hw
          simp only [windowStep] at hw
          cases hw
          rfl
        | some dprev =>
          rw [hlook] at hw
          simp only [windowStep] at hw
          split at hw
          · cases hw
            have hprev := hinv _ _ hlook
            exact hprev
          · cases hw
      · rw [alookup_aset_ne _ _ _ _ (fun he => hl he.symm)] at hd2
        exact hinv loc d2 hd2

theorem skill_le_refl (a : SkillLevel) : SkillLevel.le a a := Nat.le_refl _

theorem groupKey_eq_elim {a b : Record} (h : groupKey a = groupKey b) :
    locOf a = locOf b ∧ a.dt = b.dt ∧ rainValue a = rainValue b := by
  unfold groupKey at h
  rw [Prod.mk.injEq, Prod.mk.injEq, Prod.mk.injEq, Prod.mk.injEq] at h
  obtain ⟨h1, h2, h3, h4, h5⟩ := h
  refine ⟨?_, h2, ?_⟩
  · unfold locOf
    rw [h1, h3, h4]
  · unfold rainValue
    rw [h5]

theorem contig_dt :
    ∀ (rest : List Record) (r0 : Record), contigFromB r0.dt rest = true →
    ∀ i (h : i < (r0 :: rest).length),
      ((r0 :: rest).get ⟨i, h⟩).dt = r0.dt + 3600 * (i : Int) := by
  intro rest
  induction rest with
  | nil =>
    intro r0 _ i h
    match i, h with
    | 0, _ => simp
  | cons r1 rest ih =>
    intro r0 hc i h
    simp only [contigFromB, Bool.and_eq_true, decide_eq_true_eq] at hc
    obtain ⟨hdt, hrest⟩ := hc
    match i, h with
    | 0, _ => simp
    | Nat.succ j, h =>
      rw [List.get_cons_succ]
      rw [ih r1 hrest j (Nat.lt_of_succ_lt_succ h)]
      rw [hdt]
      push_cast
      ring

theorem contig_lastdt :
    ∀ (rest : List Record) (r0 : Record), contigFromB r0.dt rest = true →
    (rest.getLastD r0).dt = r0.dt + 3600 * (rest.length : Int) := by
  intro rest
  induction rest with
  | nil => intro r0 _; simp
  | cons r1 rest ih =>
    intro r0 hc
    simp only [contigFromB, Bool.and_eq_true, decide_eq_true_eq] at hc
    obtain ⟨hdt, hrest⟩ := hc
    rw [List.getLastD_cons, ih r1 hrest, hdt]
    simp only [List.length_cons]
    push_cast
    ring

/-- Claim C1: after all groups are processed, a location is reported as
river-flooded via river `name` exactly when it is a tracked location
that is not rain-flooded, its projected point lies strictly within
`river_margin` of that river's polyline, and its arc-length projected
position is at least the river's recorded anchor (boundary inclusive);
consequently a river with no recorded anchor floods no location, and a
rain-flooded location appears in no river-flood pair. -/
theorem C1_spec (env : Env) (records : List Record) (res : Result)
    (hrun : runMain env records = Except.ok res) (loc : Location) (name : String) :
    ((loc, name) ∈ res.pairs ↔
      (∃ d, (loc, d) ∈ res.data) ∧ loc ∉ res.rain_flood ∧
      ∃ g, (name, g) ∈ env.rivers ∧
        g.dist (env.PROJECT loc.lat loc.lon) < env.river_margin ∧
        ∃ a, alookup res.river_flood name = some a ∧
          a ≤ g.proj (env.PROJECT loc.lat loc.lon)) ∧
    (alookup res.river_flood name = none → (loc, name) ∉ res.pairs) ∧
    (loc ∈ res.rain_flood → (loc, name) ∉ res.pairs) := by
  obtain ⟨st, hst, hdata, hrain, hriver, hskills, hpairs⟩ := runMain_ok_elim hrun
  rw [hpairs, hdata, hrain, hriver]
  refine ⟨mem_riverFloodPairs env st loc name, ?_, ?_⟩
  · intro hnone hmem
    rw [mem_riverFloodPairs] at hmem
    obtain ⟨_, _, g, _, _, a, ha, _⟩ := hmem
    rw [hnone] at ha
    cases ha
  · intro hflood hmem
    rw [mem_riverFloodPairs] at hmem
    exact hmem.2.1 hflood

/-- Witness for C1 at a concrete run: location B is reported against
river "R" (it is tracked, not rain-flooded, at distance 0 of the river
and downstream of the anchor set by the rain-flooded location A). -/
theorem C1_spec_witness :
    ((wLocB, "R") ∈ (resOf (runMain wEnv [wA1, wB1])).pairs ↔
      (∃ d, (wLocB, d) ∈ (resOf (runMain wEnv [wA1, wB1])).data) ∧
      wLocB ∉ (resOf (runMain wEnv [wA1, wB1])).rain_flood ∧
      ∃ g, ("R", g) ∈ wEnv.rivers ∧
        g.dist (wEnv.PROJECT wLocB.lat wLocB.lon) < wEnv.river_margin ∧
        ∃ a, alookup (resOf (runMain wEnv [wA1, wB1])).river_flood "R" = some a ∧
          a ≤ g.proj (wEnv.PROJECT wLocB.lat wLocB.lon)) ∧
    (alookup (resOf (runMain wEnv [wA1, wB1])).river_flood "R" = none →
      (wLocB, "R") ∉ (resOf (runMain wEnv [wA1, wB1])).pairs) ∧
    (wLocB ∈ (resOf (runMain wEnv [wA1, wB1])).rain_flood →
      (wLocB, "R") ∉ (resOf (runMain wEnv [wA1, wB1])).pairs) :=
  C1_spec wEnv [wA1, wB1] (resOf (runMain wEnv [wA1, wB1])) (by decide) wLocB "R"

/-- Claim C3: a location enters the rain-flooded set exactly when some
processed group of that location makes its rolling sum reach the
threshold, the boundary being inclusive; a location whose rolling sum
never reaches the threshold never appears. -/
theorem C3_spec (env : Env) (records : List Record) (res : Result)
    (hrun : runMain env records = Except.ok res) (loc : Location) :
    loc ∈ res.rain_flood ↔
      ∃ gs1 g gs2, groupRecords (sortRecords records) = gs1 ++ g :: gs2 ∧
        ∃ stm, runGroups env initSt gs1 = Except.ok stm ∧ floodCond env stm g loc := by
  obtain ⟨st, hst, _, hrain, _, _, _⟩ := runMain_ok_elim hrun
  rw [hrain]
  rw [rain_flood_runGroups env _ initSt st hst loc]
  simp [initSt]

/-- Witness for C3 at a concrete run: location A is rain-flooded, so
some group of A reached the threshold. -/
theorem C3_spec_witness :
    ∃ gs1 g gs2, groupRecords (sortRecords [wA1, wB1]) = gs1 ++ g :: gs2 ∧
      ∃ stm, runGroups wEnv initSt gs1 = Except.ok stm ∧ floodCond wEnv stm g wLocA :=
  (C3_spec wEnv [wA1, wB1] (resOf (runMain wEnv [wA1, wB1])) (by decide) wLocA).mp
    (by decide)

/-- Claim C4: a group for a location that already has an open window,
whose timestamp is not exactly `window_end + 3600`, makes the step raise
the continuity error, and the error aborts the whole remaining run. -/
theorem C4_spec (env : Env) (st : St) (loc : Location) (d : Data) (r : Record)
    (rest : List Record) (hd : alookup st.data loc = some d) (hdloc : d.loc = loc)
    (hl : locOf r = loc) (hdt : r.dt ≠ d.dt_to + 3600) :
    stepGroup env st (r :: rest) = Except.error "ContinuityError" ∧
    ∀ gs, runGroups env st ((r :: rest) :: gs) = Except.error "ContinuityError" := by
  have hw : windowStep (locOf r) (alookup st.data (locOf r)) r =
      Except.error "ContinuityError" := by
    rw [hl, hd]
    exact windowStep_break loc d r hdloc hdt
  exact ⟨stepGroup_of_windowStep_error hw,
    fun gs => runGroups_cons_error (stepGroup_of_windowStep_error hw)⟩

/-- Witness for C4: after observations at hours 1 and 2, location A's
third observation jumps to hour 4 (no record for hour 3) and the run
aborts with the continuity error. -/
theorem C4_spec_witness :
    stepGroup wEnv wSt4 [wA3] = Except.error "ContinuityError" ∧
    ∀ gs, runGroups wEnv wSt4 ([wA3] :: gs) = Except.error "ContinuityError" :=
  C4_spec wEnv wSt4 wLocA wD4 wA3 [] (by decide) (by decide) (by decide) (by decide)

/-- Claim C6: river anchors are monotonically non-increasing over the
course of pass 1: every successful stretch of the run can only lower or
keep each river's anchor (a missing anchor standing for plus infinity),
and each update stores the minimum of the existing-anchor-or-infinity
and the new projected position. -/
theorem C6_spec (env : Env) (gs : List (List Record)) (st st2 : St)
    (hrun : runGroups env st gs = Except.ok st2) (name : String) :
    anchorLe (alookup st2.river_flood name) (alookup st.river_flood name) ∧
    (∀ (anchors : List (String × ℚ)) (k : String) (v : ℚ),
      alookup (asetMin anchors k v) k =
        some (match alookup anchors k with | none => v | some a => qmin a v)) :=
  ⟨anchorLe_runGroups env gs st st2 hrun name, fun anchors k v => alookup_asetMin_self anchors k v⟩

/-- Witness for C6 at a concrete run: river "R" starts with no anchor
(infinity) and ends with one, which the order on anchors accepts. -/
theorem C6_spec_witness :
    anchorLe
      (alookup (stOf (runGroups wEnv initSt (groupRecords (sortRecords [wA1])))).river_flood "R")
      (alookup initSt.river_flood "R") ∧
    alookup (asetMin [] "R" 5) "R" = some 5 :=
  ⟨(C6_spec wEnv (groupRecords (sortRecords [wA1])) initSt
      (stOf (runGroups wEnv initSt (groupRecords (sortRecords [wA1])))) (by decide) "R").1,
   (C6_spec wEnv (groupRecords (sortRecords [wA1])) initSt
      (stOf (runGroups wEnv initSt (groupRecords (sortRecords [wA1])))) (by decide) "R").2 [] "R" 5⟩

/-- Claim C10: river proximity is strict: a location whose planar
distance to a river's polyline is exactly `river_margin` is not
considered near that river, neither for the anchor update of pass 1 nor
for the river-flood test of pass 2. -/
theorem C10_spec (env : Env) (st : St) (name : String) :
    (∀ (r : Record) (rest : List Record) (st1 : St),
      stepGroup env st (r :: rest) = Except.ok st1 →
      (∀ g, (name, g) ∈ env.rivers →
        g.dist (env.PROJECT (locOf r).lat (locOf r).lon) = env.river_margin) →
      alookup st1.river_flood name = alookup st.river_flood name) ∧
    (∀ loc : Location,
      (∀ g, (name, g) ∈ env.rivers →
        g.dist (env.PROJECT loc.lat loc.lon) = env.river_margin) →
      (loc, name) ∉ riverFloodPairs env st) := by
  constructor
  · intro r rest st1 hstep hall
    obtain ⟨d, hw, hst1⟩ := stepGroup_ok_elim hstep
    subst hst1
    simp only [applyGroup]
    split
    · exact updateAnchors_no_close env.river_margin _ name env.rivers st.river_flood
        (fun g hg => by rw [hall g hg]; exact lt_irrefl _)
    · rfl
  · intro loc hall hmem
    rw [mem_riverFloodPairs] at hmem
    obtain ⟨_, _, g, hg, hdist, _⟩ := hmem
    rw [hall g hg] at hdist
    exact lt_irrefl _ hdist

/-- Witness for C10: with the river at distance exactly 1000 (the
margin) of every point, processing the rain-flooded location A records
no anchor, and location B is not river-flooded. -/
theorem C10_spec_witness :
    alookup (stOf (stepGroup wEnvEq initSt [wA1])).river_flood "R" =
      alookup initSt.river_flood "R" ∧
    (wLocB, "R") ∉ riverFloodPairs wEnvEq
      (stOf (runGroups wEnvEq initSt (groupRecords (sortRecords [wA1, wB1])))) := by
  constructor
  · refine (C10_spec wEnvEq initSt "R").1 wA1 [] (stOf (stepGroup wEnvEq initSt [wA1]))
      (by decide) ?_
    intro g hg
    simp only [wEnvEq, List.mem_singleton, Prod.mk.injEq] at hg
    rw [hg.2]
    rfl
  · refine (C10_spec wEnvEq
      (stOf (runGroups wEnvEq initSt (groupRecords (sortRecords [wA1, wB1])))) "R").2 wLocB ?_
    intro g hg
    simp only [wEnvEq, List.mem_singleton, Prod.mk.injEq] at hg
    rw [hg.2]
    rfl

/-- Claim C5: skill evaluation returns the maximum skill level over all
rules whose weather description exactly equals the observation's and
whose rain range accepts the rolling sum, NONE when no rule matches;
inclusive ranges accept `start <= v <= stop`, exclusive ranges
`start < v < stop`; with the rules [(0-10, "Rain", BASIC),
(10-inf, "Rain", ADVANCED)] and a group of "Rain" observations with a
rolling sum of 15 the result is ADVANCED (maximum across all matching
rules, not first match). -/
theorem C5_spec :
    (∀ (rules : List RainToSkill) (v : ℚ) (recs : List Record) (c : SkillLevel),
      SkillLevel.le (groupSkill rules v recs) c ↔
        ∀ r ∈ recs, ∀ r2s ∈ rules,
          (r2s.weather = r.weather_description ∧ r2s.rain.check v = true) →
          SkillLevel.le r2s.skill c) ∧
    (∀ (rules : List RainToSkill) (v : ℚ) (recs : List Record),
      groupSkill rules v recs = SkillLevel.NONE ∨
        ∃ r ∈ recs, ∃ r2s ∈ rules,
          (r2s.weather = r.weather_description ∧ r2s.rain.check v = true) ∧
          groupSkill rules v recs = r2s.skill) ∧
    (∀ a b v : ℚ,
      ((FloatRange.mk (EFloat.val a) (EFloat.val b) true).check v = true ↔
        a ≤ v ∧ v ≤ b) ∧
      ((FloatRange.mk (EFloat.val a) (EFloat.val b) false).check v = true ↔
        a < v ∧ v < b)) ∧
    (∀ a v : ℚ,
      (FloatRange.mk (EFloat.val a) EFloat.posInf false).check v = true ↔ a < v) ∧
    groupSkill wRules 15 [wA1, wA2] = SkillLevel.ADVANCED_SKILLS := by
  refine ⟨groupSkill_le_iff, groupSkill_attain, ?_, ?_, by decide⟩
  · intro a b v
    constructor
    · simp [FloatRange.check, EFloat.leb]
    · simp [FloatRange.check, EFloat.ltb]
  · intro a v
    simp [FloatRange.check, EFloat.ltb]

/-- Witness for C5: the sample rule table at a rolling sum of 15 on the
two "Rain" observations yields at most (indeed exactly) ADVANCED. -/
theorem C5_spec_witness :
    SkillLevel.le (groupSkill wRules 15 [wA1, wA2]) SkillLevel.ADVANCED_SKILLS :=
  (C5_spec.1 wRules 15 [wA1, wA2] SkillLevel.ADVANCED_SKILLS).mpr (by decide)

/-- Claim C2: for a location whose observation stream is a valid
contiguous hourly sequence, the rolling window after processing the
observation at time `t` holds exactly the FIFO suffix of at most the 24
most recent hourly rain values (0 for an absent value), every kept
record has its timestamp in `[t - 23h, t]`, and the rolling sum is the
sum of those values. -/
theorem C2_spec (env : Env) (gs : List (List Record)) (st st2 : St) (loc : Location)
    (hrun : runGroups env st gs = Except.ok st2)
    (h0 : alookup st.data loc = none)
    (r0 : Record) (rest : List Record)
    (hfst : locFirsts loc gs = r0 :: rest)
    (hc : contigFromB r0.dt rest = true) :
    ∃ d, alookup st2.data loc = some d ∧
      d.rain_24h = ((r0 :: rest).map rainValue).drop ((r0 :: rest).length - 24) ∧
      qsum d.rain_24h =
        (((r0 :: rest).map rainValue).drop ((r0 :: rest).length - 24)).sum ∧
      (∀ r ∈ (r0 :: rest).drop ((r0 :: rest).length - 24),
        (rest.getLastD r0).dt - 23 * 3600 ≤ r.dt ∧ r.dt ≤ (rest.getLastD r0).dt) := by
  have hproj := runGroups_data_proj env loc gs st st2 hrun
  rw [h0, hfst, windowRunFrom_fresh loc r0 rest hc] at hproj
  have hlook := (Except.ok.inj hproj).symm
  refine ⟨_, hlook, ?_, ?_, ?_⟩
  · show List.foldl push24 [] ((r0 :: rest).map rainValue) = _
    rw [foldl_push24, List.length_map]
  · show qsum (List.foldl push24 [] ((r0 :: rest).map rainValue)) = _
    rw [foldl_push24, List.length_map, qsum_eq_sum]
  · intro r hr
    obtain ⟨⟨j, hj⟩, hget⟩ := List.mem_iff_get.mp hr
    have hlen : ((r0 :: rest).drop ((r0 :: rest).length - 24)).length
        = (r0 :: rest).length - ((r0 :: rest).length - 24) := List.length_drop _ _
    have hj2 : j < (r0 :: rest).length - ((r0 :: rest).length - 24) := by
      rw [← hlen]
      exact hj
    have hidx : (r0 :: rest).length - 24 + j < (r0 :: rest).length := by
      omega
    have hgd := List.get_drop (r0 :: rest)
      (i := (r0 :: rest).length - 24) (j := j) hidx
    have hr_eq : r = (r0 :: rest).get ⟨(r0 :: rest).length - 24 + j, hidx⟩ := by
      rw [hgd, ← hget]
    have hdt_r := contig_dt rest r0 hc _ hidx
    have hlast := contig_lastdt rest r0 hc
    rw [hr_eq, hdt_r, hlast]
    constructor
    · simp only [List.length_cons] at hj2 ⊢
      omega
    · simp only [List.length_cons] at hj2 ⊢
      omega

/-- Witness for C2 at a concrete run: location A's two contiguous
observations leave the window [60, 3] whose sum is their sum. -/
theorem C2_spec_witness :
    ∃ d, alookup (stOf (runGroups wEnv initSt (groupRecords (sortRecords [wA1, wA2])))).data
        wLocA = some d ∧
      d.rain_24h = (([wA1, wA2]).map rainValue).drop (([wA1, wA2] : List Record).length - 24) ∧
      qsum d.rain_24h =
        ((([wA1, wA2]).map rainValue).drop (([wA1, wA2] : List Record).length - 24)).sum ∧
      (∀ r ∈ ([wA1, wA2] : List Record).drop (([wA1, wA2] : List Record).length - 24),
        (([wA2] : List Record).getLastD wA1).dt - 23 * 3600 ≤ r.dt ∧
          r.dt ≤ (([wA2] : List Record).getLastD wA1).dt) :=
  C2_spec wEnv (groupRecords (sortRecords [wA1, wA2])) initSt
    (stOf (runGroups wEnv initSt (groupRecords (sortRecords [wA1, wA2])))) wLocA
    (by decide) (by decide) wA1 [wA2] (by decide) (by decide)

/-- Claim C8 as amended: a new window opens with
`window_start = timestamp - 3600` and `window_end = timestamp`; after
every update `window_end - window_start = 3600 * (number of
observations processed)`, which equals `3600 * len(rain_sequence)` while
at most 24 observations have been processed; the sequence never exceeds
24 entries, the oldest being evicted FIFO on overflow.  (The claim's
`window_end - window_start == 3600 * (len(rain_sequence) - 1)` is off by
one already at the first observation, and after an eviction
`window_start` is not advanced at all.) -/
theorem C8_amended_spec (env : Env) (gs : List (List Record)) (st st2 : St)
    (loc : Location) (hrun : runGroups env st gs = Except.ok st2)
    (h0 : alookup st.data loc = none)
    (r0 : Record) (rest : List Record)
    (hfst : locFirsts loc gs = r0 :: rest)
    (hc : contigFromB r0.dt rest = true) :
    ∃ d, alookup st2.data loc = some d ∧
      d.dt_from = r0.dt - 3600 ∧
      d.dt_to = (rest.getLastD r0).dt ∧
      d.dt_to - d.dt_from = 3600 * (((r0 :: rest).length : Nat) : Int) ∧
      d.rain_24h.length = min (r0 :: rest).length 24 ∧
      ((r0 :: rest).length ≤ 24 →
        d.dt_to - d.dt_from = 3600 * ((d.rain_24h.length : Nat) : Int)) ∧
      d.rain_24h = ((r0 :: rest).map rainValue).drop ((r0 :: rest).length - 24) := by
  have hproj := runGroups_data_proj env loc gs st st2 hrun
  rw [h0, hfst, windowRunFrom_fresh loc r0 rest hc] at hproj
  have hlook := (Except.ok.inj hproj).symm
  have hlast := contig_lastdt rest r0 hc
  have hraineq : List.foldl push24 [] ((r0 :: rest).map rainValue) =
      ((r0 :: rest).map rainValue).drop ((r0 :: rest).length - 24) := by
    rw [foldl_push24, List.length_map]
  have hrainlen : (List.foldl push24 [] ((r0 :: rest).map rainValue)).length =
      min (r0 :: rest).length 24 := by
    rw [hraineq, List.length_drop, List.length_map]
    omega
  refine ⟨_, hlook, rfl, ?_, ?_, ?_, ?_, ?_⟩
  · show r0.dt + 3600 * ((rest.length : Nat) : Int) = _
    rw [hlast]
  · show r0.dt + 3600 * ((rest.length : Nat) : Int) - (r0.dt - 3600) = _
    simp only [List.length_cons]
    push_cast
    ring
  · exact hrainlen
  · intro hle
    show r0.dt + 3600 * ((rest.length : Nat) : Int) - (r0.dt - 3600) = _
    rw [hrainlen]
    simp only [List.length_cons] at hle ⊢
    have : min (rest.length + 1) 24 = rest.length + 1 := by omega
    rw [this]
    push_cast
    ring
  · exact hraineq

/-- Witness for the amended C8 at a concrete run: after A's two
contiguous observations the window spans 7200 seconds for 2 entries. -/
theorem C8_amended_spec_witness :
    ∃ d, alookup (stOf (runGroups wEnv initSt (groupRecords (sortRecords [wA1, wA2])))).data
        wLocA = some d ∧
      d.dt_from = wA1.dt - 3600 ∧
      d.dt_to = (([wA2] : List Record).getLastD wA1).dt ∧
      d.dt_to - d.dt_from = 3600 * ((([wA1, wA2] : List Record).length : Nat) : Int) ∧
      d.rain_24h.length = min ([wA1, wA2] : List Record).length 24 ∧
      (([wA1, wA2] : List Record).length ≤ 24 →
        d.dt_to - d.dt_from = 3600 * ((d.rain_24h.length : Nat) : Int)) ∧
      d.rain_24h = (([wA1, wA2]).map rainValue).drop (([wA1, wA2] : List Record).length - 24) :=
  C8_amended_spec wEnv (groupRecords (sortRecords [wA1, wA2])) initSt
    (stOf (runGroups wEnv initSt (groupRecords (sortRecords [wA1, wA2])))) wLocA
    (by decide) (by decide) wA1 [wA2] (by decide) (by decide)

/-- Counterexample to C8 as stated: after location A's very first
observation its window has the non-empty unbroken sequence [60], yet
`window_end - window_start = 3600`, not `3600 * (len - 1) = 0`. -/
theorem C8_counterexample :
    runMain wEnv [wA1] = Except.ok (resOf (runMain wEnv [wA1])) ∧
    alookup (resOf (runMain wEnv [wA1])).data wLocA = some wD1 ∧
    wD1.rain_24h ≠ [] ∧
    wD1.dt_to - wD1.dt_from ≠ 3600 * ((wD1.rain_24h.length : Int) - 1) := by
  refine ⟨by decide, by decide, by decide, by decide⟩

/-- Counterexample to C7 as stated: two consecutive sorted observations
with the same location AND the same timestamp but different rain values
are split into two groups: the partition is strictly finer than the
(location, timestamp) key, and a group does not contain all the
consecutive sorted observations of its location. -/
theorem C7_counterexample :
    wC1.city_name = wC2.city_name ∧ wC1.lat = wC2.lat ∧ wC1.lon = wC2.lon ∧
    wC1.dt = wC2.dt ∧
    sortRecords [wC1, wC2] = [wC1, wC2] ∧
    groupRecords (sortRecords [wC1, wC2]) = [[wC1], [wC2]] := by
  refine ⟨by decide, by decide, by decide, by decide, by decide, by decide⟩

/-- Claim C7 as amended: after the sort, the grouper emits maximal runs
of consecutive observations sharing the full record except the weather
description — the group key is (location name, timestamp, latitude,
longitude, rain value), not just (location, timestamp): the groups
concatenate back to the input, are nonempty and key-constant, and
adjacent groups differ on the key (maximality). -/
theorem C7_amended_spec (l : List Record) :
    (groupRecords l).flatten = l ∧
    (∀ g ∈ groupRecords l, g ≠ []) ∧
    (∀ g ∈ groupRecords l, ∀ a ∈ g, ∀ b ∈ g, groupKey a = groupKey b) ∧
    List.Chain' (fun g1 g2 => ∀ a ∈ g1.getLast?, ∀ b ∈ g2.head?, groupKey a ≠ groupKey b)
      (groupRecords l) :=
  ⟨groupRecords_flatten l, groupRecords_ne_nil l, groupRecords_key l, groupRecords_chain l⟩

/-- Witness for the amended C7 on the concrete split input. -/
theorem C7_amended_spec_witness :
    (groupRecords (sortRecords [wC1, wC2])).flatten = sortRecords [wC1, wC2] ∧
    [wC1] ≠ ([] : List Record) :=
  ⟨(C7_amended_spec (sortRecords [wC1, wC2])).1,
   (C7_amended_spec (sortRecords [wC1, wC2])).2.1 [wC1] (by decide)⟩

theorem qsum_singleton (x : ℚ) : qsum [x] = x := by
  rw [qsum_eq_sum]
  simp

/-- Claim C9: observations identical in every field except the weather
description (same location, same timestamp, same rain value) raise no
continuity error: after sorting they form one single group containing
all of them, the run succeeds, exactly one rain value is appended to
the location's window, the single skill report (if any) is stamped with
their common timestamp, and every one of their weather descriptions is
consulted by the group's skill evaluation (any rule matching any of the
weather descriptions bounds the reported skill from below). -/
theorem C9_spec (env : Env) (r0 : Record) (rest : List Record)
    (hsame : ∀ a ∈ r0 :: rest, groupKey a = groupKey r0) :
    groupRecords (sortRecords (r0 :: rest)) = [sortRecords (r0 :: rest)] ∧
    (∀ r ∈ r0 :: rest, r ∈ sortRecords (r0 :: rest)) ∧
    ∃ res, runMain env (r0 :: rest) = Except.ok res ∧
      res.data = [(locOf r0,
        { loc := locOf r0, dt_from := r0.dt - 3600, dt_to := r0.dt,
          rain_24h := [rainValue r0] })] ∧
      res.skills = (if groupSkill env.rules (rainValue r0) (sortRecords (r0 :: rest)) =
          SkillLevel.NONE then []
        else [(locOf r0,
          groupSkill env.rules (rainValue r0) (sortRecords (r0 :: rest)), r0.dt)]) ∧
      (∀ r2s ∈ env.rules, ∀ r ∈ r0 :: rest,
        r2s.weather = r.weather_description →
        r2s.rain.check (rainValue r0) = true →
        SkillLevel.le r2s.skill
          (groupSkill env.rules (rainValue r0) (sortRecords (r0 :: rest)))) := by
  have hmemiff : ∀ r : Record, r ∈ sortRecords (r0 :: rest) ↔ r ∈ r0 :: rest :=
    fun r => mem_sortRecords _ r
  have hlen : (sortRecords (r0 :: rest)).length = rest.length + 1 := by
    rw [length_sortRecords]
    rfl
  cases hl : sortRecords (r0 :: rest) with
  | nil => rw [hl] at hlen; cases hlen
  | cons s0 srest =>
    have hsame2 : ∀ a ∈ s0 :: srest, groupKey a = groupKey r0 := by
      intro a ha
      refine hsame a ((hmemiff a).mp ?_)
      rw [hl]
      exact ha
    have hk0 : groupKey s0 = groupKey r0 := hsame2 s0 (List.mem_cons_self _ _)
    obtain ⟨hloc0, hdt0, hrain0⟩ := groupKey_eq_elim hk0
    have hgrp : groupRecords (s0 :: srest) = [s0 :: srest] := by
      apply groupRecords_all_same
      intro a ha
      rw [hsame2 a ha, ← hk0]
    have hw : windowStep (locOf s0) (alookup initSt.data (locOf s0)) s0 =
        Except.ok { loc := locOf s0, dt_from := s0.dt - 3600, dt_to := s0.dt,
                    rain_24h := [rainValue s0] } := by
      show windowStep (locOf s0) none s0 = _
      simp only [windowStep, push24_nil]
    have hstep := @stepGroup_of_windowStep env initSt s0 srest _ hw
    have hrun : runGroups env initSt (groupRecords (sortRecords (r0 :: rest))) =
        Except.ok (applyGroup env initSt s0 srest
          { loc := locOf s0, dt_from := s0.dt - 3600, dt_to := s0.dt,
            rain_24h := [rainValue s0] }) := by
      rw [hl, hgrp, runGroups_cons_ok hstep, runGroups_nil]
    have hqs : qsum [rainValue s0] = rainValue r0 := by
      rw [qsum_singleton, hrain0]
    have hlastdt : (srest.getLastD s0).dt = r0.dt :=
      (groupKey_eq_elim (hsame2 _ (List.getLastD_mem_cons srest s0))).2.1
    refine ⟨?_, ?_, ?_⟩
    · exact hgrp
    · intro r hr
      rw [← hl]
      exact (hmemiff r).mpr hr
    · refine ⟨_, runMain_of_runGroups hrun, ?_, ?_, ?_⟩
      · simp only [applyGroup]
        simp [aset, initSt, hloc0, hdt0, hrain0]
      · simp only [applyGroup, initSt]
        rw [hqs, hlastdt, hloc0]
        by_cases hskill : groupSkill env.rules (rainValue r0) (s0 :: srest) = SkillLevel.NONE
        · rw [if_pos hskill, if_pos hskill]
        · rw [if_neg hskill, if_neg hskill, List.nil_append]
      · intro r2s hr2s r hrr hwth hcheck
        have hrmem : r ∈ s0 :: srest := by
          rw [← hl]
          exact (hmemiff r).mpr hrr
        exact (groupSkill_le_iff env.rules (rainValue r0) (s0 :: srest) _).mp
          (skill_le_refl _) r hrmem r2s hr2s ⟨hwth, hcheck⟩

/-- Witness for C9: two observations of location A identical except for
their weather descriptions ("Rain" and "Sun") are processed without
error into one group and one window entry. -/
theorem C9_spec_witness :
    groupRecords (sortRecords [wA1, wW2]) = [sortRecords [wA1, wW2]] ∧
    (∀ r ∈ [wA1, wW2], r ∈ sortRecords [wA1, wW2]) ∧
    ∃ res, runMain wEnv [wA1, wW2] = Except.ok res ∧
      res.data = [(locOf wA1,
        { loc := locOf wA1, dt_from := wA1.dt - 3600, dt_to := wA1.dt,
          rain_24h := [rainValue wA1] })] ∧
      res.skills = (if groupSkill wEnv.rules (rainValue wA1) (sortRecords [wA1, wW2]) =
          SkillLevel.NONE then []
        else [(locOf wA1,
          groupSkill wEnv.rules (rainValue wA1) (sortRecords [wA1, wW2]), wA1.dt)]) ∧
      (∀ r2s ∈ wEnv.rules, ∀ r ∈ [wA1, wW2],
        r2s.weather = r.weather_description →
        r2s.rain.check (rainValue wA1) = true →
        SkillLevel.le r2s.skill
          (groupSkill wEnv.rules (rainValue wA1) (sortRecords [wA1, wW2]))) :=
  C9_spec wEnv wA1 [wW2] (by decide)

end Flood
